import Mathlib

/-!
Verification development for the EV battery value federate
(`python/BLOSEM_tutorial/EVBatteryValueFed.py`).

The federate holds a fixed empirical table (`socs`, `effective_R`), a per-unit
state-of-charge dictionary, and a stepping loop that, once per granted minute,
reads an applied charging voltage per unit, looks up an effective resistance,
computes a charging current, accumulates energy into the SOC, and publishes the
current.  All real arithmetic is embedded over `ℚ`; NumPy's `interp` is
modelled together with its argument validation, because the source invokes it
with transposed arguments (`np.interp(socs, effective_R, current_soc[j])`),
placing the scalar SOC in the slot NumPy requires to be a 1-D array.
-/

namespace EVBattery

/-- SOC breakpoints of the empirical battery table (source line 33). -/
def socs : List ℚ :=
  [0, 0.0667, 0.1333, 0.2, 0.2667, 0.3333, 0.4, 0.4667, 0.5333,
   0.6, 0.6667, 0.7333, 0.8, 0.8667, 0.9333, 1]

/-- Effective-resistance values at the breakpoints (source line 35). -/
def effective_R : List ℚ :=
  [2, 2.2222, 2.4444, 2.6667, 2.6815, 2.6963, 2.7111,
   2.7259, 2.7407, 2.7556, 2.7704, 2.7852, 2.8, 3.8182,
   6, 21]

/-- Number of series cells in the pack (source line 101). -/
def batt_cell_series : ℕ := 96

/-- A NumPy value as `np.interp` receives it: a 0-d scalar or a 1-D vector. -/
inductive NpVal where
  | scalar : ℚ → NpVal
  | vec : List ℚ → NpVal
  deriving DecidableEq

/-- Piecewise-linear scan over `(x, f)` sample pairs with ascending `x`:
find the first segment whose right endpoint is at or beyond the query and
interpolate linearly inside it; past the last sample, clamp to its value.
This matches NumPy's result on an increasing sample grid for queries strictly
above the first sample point. -/
def interpGo (q : ℚ) : List (ℚ × ℚ) → ℚ
  | [] => 0
  | [p] => p.2
  | p0 :: p1 :: rest =>
      if q ≤ p1.1 then p0.2 + (q - p0.1) * ((p1.2 - p0.2) / (p1.1 - p0.1))
      else interpGo q (p1 :: rest)

/-- Scalar piecewise-linear interpolation over sample pairs, with the left
clamp: queries at or below the first sample point return its value. -/
def interpPt (q : ℚ) (pts : List (ℚ × ℚ)) : ℚ :=
  match pts with
  | [] => 0
  | p :: _ => if q ≤ p.1 then p.2 else interpGo q pts

/-- Model of `numpy.interp(x, xp, fp)` including its argument validation:
`xp` and `fp` must be 1-D arrays (a scalar is a 0-d array and is rejected with
`ValueError: object of too small depth for desired array`), `xp` must be
nonempty, and `fp` must have the same length as `xp`; the query `x` may be a
scalar or a vector and is interpolated pointwise with boundary clamping. -/
def np_interp (x xp fp : NpVal) : Except String NpVal :=
  match xp with
  | .scalar _ => .error "object of too small depth for desired array"
  | .vec xps =>
    match fp with
    | .scalar _ => .error "object of too small depth for desired array"
    | .vec fps =>
      if xps.length = 0 then .error "array of sample points is empty"
      else if fps.length ≠ xps.length then
        .error "fp and xp are not of the same length."
      else
        let pts := xps.zip fps
        match x with
        | .scalar q => .ok (.scalar (interpPt q pts))
        | .vec qs => .ok (.vec (qs.map (fun q => interpPt q pts)))

/-- Scalar multiplication of a NumPy value, as `batt_cell_series * _`
broadcasts. -/
def npScale (c : ℚ) : NpVal → NpVal
  | .scalar v => .scalar (c * v)
  | .vec vs => .vec (vs.map (fun v => c * v))

/-- The effective-resistance computation exactly as the source writes it
(lines 139-140): `R = batt_cell_series * np.interp(socs, effective_R,
current_soc[j])` — the SOC grid in the query slot, the resistance grid in the
x-node slot, and the scalar per-unit SOC in the node-value slot. -/
def R_code (soc_j : ℚ) : Except String NpVal :=
  (np_interp (NpVal.vec socs) (NpVal.vec effective_R)
    (NpVal.scalar soc_j)).map (npScale (batt_cell_series : ℚ))

/-- Modelled from the spec: §4.1 fixes the Resistance Curve Model's intended
semantics — interpolate `effective_R` as a function of a scalar SOC over the
`socs` breakpoints, i.e. the un-transposed call
`np.interp(soc, socs, effective_R)`; the spec directs that the source's
transposed argument order be treated as a regression, not reproduced. -/
def interpolate (q : ℚ) : ℚ := interpPt q (socs.zip effective_R)

/-- SOC assigned by the initialization loop (source line 106) and by the
zero-voltage reset (line 136): `np.random.randint(0, 80) / 100`, where the
drawn integer is uniform on `{0, …, 79}` and is modelled as a `Fin 80`. -/
def initSoc (draw : Fin 80) : ℚ := (draw.val : ℚ) / 100

/-- One per-unit tick of the source's inner loop (lines 131-151), acting on
that unit's SOC.  Returns the unit's SOC after the statements that executed,
paired with the published current or the exception the tick raises.  The
zero-voltage reset assignment happens before the resistance computation, so
its mutation survives even when the tick fails; the source fixes
`dt = update_interval = 60`, kept as a parameter here. -/
def stepUnit (soc : ℚ) (charging_voltage : ℚ) (draw : Fin 80) (dt : ℚ) :
    ℚ × Except String ℚ :=
  let soc0 := if charging_voltage = 0 then initSoc draw else soc
  match R_code soc0 with
  | .ok (NpVal.scalar R) =>
      let charging_current := charging_voltage / R
      let added_energy := charging_current * charging_voltage * dt / 3600
      (soc0 + added_energy, .ok charging_current)
  | .ok (NpVal.vec _) => (soc0, .error "non-scalar resistance")
  | .error e => (soc0, .error e)

/-- Modelled from the spec: §4.2's per-tick law with the §4.1-intended
interpolation — `R = cells * interpolate soc`, `current = v / R`,
`added_energy = current * v * dt / 3600`, `new_soc = soc + added_energy`.
Returns `(charging_current, new_soc)`. -/
def stepSpec (cells : ℕ) (v soc dt : ℚ) : ℚ × ℚ :=
  let R := (cells : ℚ) * interpolate soc
  let charging_current := v / R
  let added_energy := charging_current * v * dt / 3600
  (charging_current, soc + added_energy)

/-- One per-unit tick acting on the whole SOC dictionary (keyed by unit
index): only entry `j` is read and written, mirroring
`current_soc[j] = …` in the source; a missing key is a `KeyError`. -/
def stepState (st : List ℚ) (j : ℕ) (v : ℚ) (draw : Fin 80) (dt : ℚ) :
    List ℚ × Except String ℚ :=
  match st.get? j with
  | none => (st, .error "KeyError")
  | some soc =>
      let r := stepUnit soc v draw dt
      (st.set j r.1, r.2)

/-- The inner `for j in range(0, sub_count)` loop of one granted tick
(source lines 127-153): walks the units in index order, drawing from the
pseudo-random stream `stream` at the running counter exactly when a unit's
voltage reads zero.  An uncaught exception aborts the loop at the failing
unit, leaving the remaining units untouched and unpublished; that unit's
already-executed reset assignment survives.  Returns the updated SOC list,
the currents published this tick, the new stream counter, and the exception
if one was raised. -/
def tickUnitsGo (stream : ℕ → Fin 80) (dt : ℚ) :
    List ℚ → List ℚ → ℕ → List ℚ × List ℚ × ℕ × Option String
  | [], _, ctr => ([], [], ctr, none)
  | s :: ss, [], ctr => (s :: ss, [], ctr, some "missing input")
  | s :: ss, v :: vs, ctr =>
      let draw := stream ctr
      let ctr1 := if v = 0 then ctr + 1 else ctr
      let r := stepUnit s v draw dt
      match r.2 with
      | .error e => (r.1 :: ss, [], ctr1, some e)
      | .ok cur =>
          let rest := tickUnitsGo stream dt ss vs ctr1
          (r.1 :: rest.1, cur :: rest.2.1, rest.2.2.1, rest.2.2.2)

/-- The granted-time ticks of the main `while` loop (source lines 113-156),
one voltage row per tick.  An exception raised inside a tick propagates and
ends the run.  Returns the final SOC list, the concatenated published
currents, and the exception if one was raised. -/
def runTicks (stream : ℕ → Fin 80) (dt : ℚ) :
    List (List ℚ) → List ℚ → ℕ → List ℚ × List ℚ × Option String
  | [], st, _ => (st, [], none)
  | vs :: rest, st, ctr =>
      let r := tickUnitsGo stream dt st vs ctr
      match r.2.2.2 with
      | some e => (r.1, r.2.1, some e)
      | none =>
          let r2 := runTicks stream dt rest r.1 r.2.2.1
          (r2.1, r.2.1 ++ r2.2.1, r2.2.2)

/-- A whole run of the engine: seed the pseudo-random stream, initialize
`n` units from its first `n` draws (source lines 104-106), then execute one
tick per voltage row.  Returns the published current sequence and the
exception that ended the run, if any.  The stream abstracts
`np.random.seed(1)` followed by the successive `np.random.randint(0, 80)`
draws: NumPy's generator yields a fixed such stream for a fixed seed. -/
def runEngine (stream : ℕ → Fin 80) (n : ℕ) (volts : List (List ℚ))
    (dt : ℚ) : List ℚ × Option String :=
  let socs0 := (List.range n).map (fun i => initSoc (stream i))
  let r := runTicks stream dt volts socs0 n
  (r.2.1, r.2.2)

/-- The granted times visited by the main `while t < total_interval` loop
(source lines 108-125) under the assumption that the scheduler grants each
requested time exactly: starting from `t`, each iteration requests and is
granted `t + stp`, runs one tick at that time, and the loop exits once the
granted time reaches the horizon.  `fuel` bounds the recursion; every claim
instantiates it large enough that the horizon test, not the fuel, ends the
list. -/
def loopTrace (stp horizon : ℕ) : ℕ → ℕ → List ℕ
  | _, 0 => []
  | t, fuel + 1 =>
      if t < horizon then (t + stp) :: loopTrace stp horizon (t + stp) fuel
      else []

/-- Along a list of sample pairs whose first components form a strictly
increasing chain, the head's abscissa bounds every abscissa from below. -/
lemma chain_head_le :
    ∀ (l : List (ℚ × ℚ)) (a : ℚ × ℚ),
      List.Chain' (fun u v => u.1 < v.1) (a :: l) →
      ∀ j : ℕ, j < l.length + 1 → a.1 ≤ ((a :: l).getD j (0, 0)).1 := by
  intro l
  induction l with
  | nil =>
      intro a _ j hj
      simp only [List.length_nil] at hj
      have hj0 : j = 0 := by omega
      subst hj0
      simp
  | cons b l2 ih =>
      intro a hch j hj
      match j with
      | 0 => simp
      | Nat.succ j2 =>
          have h2 := List.chain'_cons.mp hch
          have h3 := ih b h2.2 j2 (by simpa using hj)
          calc a.1 ≤ b.1 := le_of_lt h2.1
            _ ≤ _ := by simpa using h3

/-- Strict betweenness for the segment scan: if the abscissas are strictly
increasing, the query lies strictly inside segment `i`, and the node values at
the ends of that segment strictly increase, then the scanned value lies
strictly between those node values. -/
lemma interpGo_between :
    ∀ (pts : List (ℚ × ℚ)) (i : ℕ) (q : ℚ),
      i + 1 < pts.length →
      List.Chain' (fun u v => u.1 < v.1) pts →
      (pts.getD i (0, 0)).2 < (pts.getD (i + 1) (0, 0)).2 →
      (pts.getD i (0, 0)).1 < q →
      q < (pts.getD (i + 1) (0, 0)).1 →
      (pts.getD i (0, 0)).2 < interpGo q pts ∧
        interpGo q pts < (pts.getD (i + 1) (0, 0)).2 := by
  intro pts
  induction pts with
  | nil => intro i q hi; simp at hi
  | cons p0 tail ih =>
      intro i q hi hch hf h1 h2
      match tail, hi with
      | p1 :: rest, hi =>
        match i with
        | 0 =>
            simp only [List.getD_cons_zero, List.getD_cons_succ] at hf h1 h2 ⊢
            have hx : p0.1 < p1.1 := (List.chain'_cons.mp hch).1
            have hd : (0 : ℚ) < p1.1 - p0.1 := by linarith
            have hif : q ≤ p1.1 := le_of_lt h2
            rw [interpGo, if_pos hif]
            constructor
            · have hpos : 0 < (q - p0.1) * ((p1.2 - p0.2) / (p1.1 - p0.1)) :=
                mul_pos (by linarith) (div_pos (by linarith) hd)
              linarith
            · have key : (q - p0.1) * ((p1.2 - p0.2) / (p1.1 - p0.1)) < p1.2 - p0.2 := by
                rw [← mul_div_assoc, div_lt_iff₀ hd]
                nlinarith [mul_pos (sub_pos.mpr hf) (sub_pos.mpr h2)]
              linarith
        | Nat.succ i2 =>
            have hch2 := (List.chain'_cons.mp hch).2
            simp only [List.getD_cons_succ] at hf h1 h2 ⊢
            have hlen : i2 + 1 < (p1 :: rest).length := by simpa using hi
            have hhead : p1.1 ≤ (((p1 :: rest)).getD i2 (0, 0)).1 := by
              have := chain_head_le rest p1 hch2 i2 (by simpa using Nat.lt_of_succ_lt hlen)
              simpa using this
            have hq : ¬ q ≤ p1.1 := by
              push_neg
              exact lt_of_le_of_lt hhead h1
            rw [interpGo, if_neg hq]
            exact ih i2 q hlen hch2 hf h1 h2

/-- Strict betweenness for the full interpolation including the left clamp. -/
lemma interpPt_between (pts : List (ℚ × ℚ)) (i : ℕ) (q : ℚ)
    (hi : i + 1 < pts.length)
    (hch : List.Chain' (fun u v => u.1 < v.1) pts)
    (hf : (pts.getD i (0, 0)).2 < (pts.getD (i + 1) (0, 0)).2)
    (h1 : (pts.getD i (0, 0)).1 < q)
    (h2 : q < (pts.getD (i + 1) (0, 0)).1) :
    (pts.getD i (0, 0)).2 < interpPt q pts ∧
      interpPt q pts < (pts.getD (i + 1) (0, 0)).2 := by
  match pts, hi with
  | p0 :: tail, hi =>
    have hhead : p0.1 ≤ (((p0 :: tail)).getD i (0, 0)).1 := by
      exact chain_head_le tail p0 hch i (by simpa using Nat.lt_of_succ_lt hi)
    have hq : ¬ q ≤ p0.1 := by
      push_neg
      exact lt_of_le_of_lt hhead h1
    have hrw : interpPt q (p0 :: tail) = interpGo q (p0 :: tail) := by
      simp [interpPt, if_neg hq]
    rw [hrw]
    exact interpGo_between (p0 :: tail) i q hi hch hf h1 h2

set_option maxHeartbeats 2000000

/-- The source's resistance lookup fails for every SOC: the transposed
`np.interp` call puts the scalar SOC where NumPy requires a 1-D array. -/
lemma R_code_err (q : ℚ) :
    R_code q = Except.error "object of too small depth for desired array" := rfl

/-- Closed form of a per-unit tick of the source: the zero-voltage reset is
applied, then the transposed interpolation raises. -/
lemma stepUnit_eq (soc v : ℚ) (draw : Fin 80) (dt : ℚ) :
    stepUnit soc v draw dt =
      (if v = 0 then initSoc draw else soc,
       Except.error "object of too small depth for desired array") := by
  simp only [stepUnit, R_code_err]

/-- The table's breakpoint abscissas paired with their resistances form a
strictly increasing chain in both coordinates. -/
lemma table_chain :
    List.Chain' (fun u v => u.1 < v.1) (socs.zip effective_R) := by
  norm_num [socs, effective_R, List.Chain']

/-- Indexing the zipped table agrees with indexing the two grids. -/
lemma table_getD (j : ℕ) (hj : j < 16) :
    (socs.zip effective_R).getD j (0, 0) = (socs.getD j 0, effective_R.getD j 0) := by
  interval_cases j <;> rfl

/-- Consecutive resistance values strictly increase everywhere in the table. -/
lemma effective_R_mono (j : ℕ) (hj : j < 15) :
    effective_R.getD j 0 < effective_R.getD (j + 1) 0 := by
  interval_cases j <;> norm_num [effective_R]

/-- Claim C1: the code's resistance lookup raises for every query (the
np.interp arguments are transposed), while the intended interpolation —
`np.interp(soc, socs, effective_R)` — hits every breakpoint exactly and maps
queries strictly inside a segment strictly between that segment's resistance
values (the table has no flat segment). -/
theorem C1_interpolation :
    (∀ q : ℚ, R_code q =
      Except.error "object of too small depth for desired array") ∧
    (∀ i : Fin 16, interpolate (socs.getD i 0) = effective_R.getD i 0) ∧
    (∀ (i : ℕ) (q : ℚ), i + 1 < 16 →
      socs.getD i 0 < q → q < socs.getD (i + 1) 0 →
      effective_R.getD i 0 < interpolate q ∧
        interpolate q < effective_R.getD (i + 1) 0) := by
  refine ⟨fun q => rfl, ?_, ?_⟩
  · intro i
    have hi : i.val < 16 := i.isLt
    set j := i.val with hj
    interval_cases j <;>
      norm_num [interpolate, interpPt, interpGo, socs, effective_R,
        List.zip_cons_cons]
  · intro i q hi h1 h2
    have hlen : i + 1 < (socs.zip effective_R).length := by
      have : (socs.zip effective_R).length = 16 := rfl
      omega
    have hf : ((socs.zip effective_R).getD i (0, 0)).2 <
        ((socs.zip effective_R).getD (i + 1) (0, 0)).2 := by
      rw [table_getD i (by omega), table_getD (i + 1) hi]
      exact effective_R_mono i (by omega)
    have h1z : ((socs.zip effective_R).getD i (0, 0)).1 < q := by
      rw [table_getD i (by omega)]; exact h1
    have h2z : q < ((socs.zip effective_R).getD (i + 1) (0, 0)).1 := by
      rw [table_getD (i + 1) hi]; exact h2
    have hmain := interpPt_between (socs.zip effective_R) i q hlen table_chain hf h1z h2z
    rw [table_getD i (by omega), table_getD (i + 1) hi] at hmain
    simpa [interpolate] using hmain

/-- Witness for C1: the query `1/30` lies strictly inside the first segment
and its interpolated resistance lies strictly between 2 and 2.2222. -/
theorem C1_interpolation_witness :
    effective_R.getD 0 0 < interpolate (1 / 30) ∧
      interpolate (1 / 30) < effective_R.getD 1 0 :=
  C1_interpolation.2.2 0 (1 / 30) (by norm_num) (by norm_num [socs])
    (by norm_num [socs])

/-- Claim C2, counterexample: at the claim's own input (96 series cells,
SOC 0.5, 400 V, 60 s) the tick raises NumPy's ValueError and leaves the SOC
at 0.5; no charging current — in particular not `400 / (2.7556 * 96)` — is
returned. -/
theorem C2_counterexample :
    stepUnit (1 / 2) 400 (0 : Fin 80) 60 =
      ((1 / 2 : ℚ),
       Except.error "object of too small depth for desired array") := rfl

/-- Claim C2, amended: the tick as written fails before computing a current,
and under the spec's intended interpolation the table gives
`R(0.5) = 2.7333` — not the claim's `2.7556` — so the per-tick law yields
`current = 400 / (96 * 2.7333)` and `new_soc = 0.5 + current * 400 * 60 / 3600`
exactly. -/
theorem C2_amended_law :
    stepUnit (1 / 2) 400 (0 : Fin 80) 60 =
      ((1 / 2 : ℚ),
       Except.error "object of too small depth for desired array") ∧
    interpolate (1 / 2) = 27333 / 10000 ∧
    interpolate (1 / 2) ≠ 27556 / 10000 ∧
    stepSpec 96 400 (1 / 2) 60 =
      (400 / ((96 : ℚ) * (27333 / 10000)),
       1 / 2 + 400 / ((96 : ℚ) * (27333 / 10000)) * 400 * 60 / 3600) := by
  refine ⟨rfl, ?_, ?_, ?_⟩
  · norm_num [interpolate, interpPt, interpGo, socs, effective_R,
      List.zip_cons_cons]
  · norm_num [interpolate, interpPt, interpGo, socs, effective_R,
      List.zip_cons_cons]
  · norm_num [stepSpec, interpolate, interpPt, interpGo, socs, effective_R,
      List.zip_cons_cons]

/-- Claim C4: a zero-voltage tick reassigns the unit's SOC to the fresh draw
`randint(0, 80) / 100` before the resistance computation — the whole tick
result is independent of the prior SOC — and the new SOC lies in
`[0, 0.80)`. -/
theorem C4_zero_voltage_reset :
    ∀ (soc soc2 : ℚ) (draw : Fin 80) (dt : ℚ),
      stepUnit soc 0 draw dt = stepUnit soc2 0 draw dt ∧
      (stepUnit soc 0 draw dt).1 = initSoc draw ∧
      0 ≤ initSoc draw ∧ initSoc draw < 4 / 5 := by
  intro soc soc2 draw dt
  refine ⟨?_, ?_, ?_, ?_⟩
  · rw [stepUnit_eq, stepUnit_eq]; simp
  · rw [stepUnit_eq]; simp
  · exact div_nonneg (Nat.cast_nonneg _) (by norm_num)
  · have h80 : (draw.val : ℚ) < 80 := by exact_mod_cast draw.isLt
    rw [initSoc, div_lt_iff₀ (by norm_num : (0 : ℚ) < 100)]
    linarith

/-- Claim C5: the code's lookup raises for out-of-range queries just as for
every other query, while the intended interpolation clamps: `-1` behaves as
`0` (resistance 2) and `2` behaves as `1` (resistance 21). -/
theorem C5_clamping :
    R_code (-1) = Except.error "object of too small depth for desired array" ∧
    R_code 2 = Except.error "object of too small depth for desired array" ∧
    interpolate (-1) = interpolate 0 ∧
    interpolate 2 = interpolate 1 ∧
    interpolate 0 = 2 ∧ interpolate 1 = 21 := by
  refine ⟨rfl, rfl, rfl, ?_, rfl, ?_⟩
  · norm_num [interpolate, interpPt, interpGo, socs, effective_R,
      List.zip_cons_cons]
  · norm_num [interpolate, interpPt, interpGo, socs, effective_R,
      List.zip_cons_cons]

/-- Claim C6: with 60 s steps, a 3600 s horizon, and the scheduler granting
each request exactly, the loop header runs exactly 60 ticks, the last at
granted time 3600, and exits as soon as the granted time reaches the horizon;
but an actual run aborts inside the first tick (0 currents published) because
the transposed interpolation raises. -/
theorem C6_horizon :
    (loopTrace 60 3600 0 1000).length = 60 ∧
    (loopTrace 60 3600 0 1000).getLast? = some 3600 ∧
    (∀ fuel : ℕ, loopTrace 60 3600 3600 fuel = []) ∧
    runEngine (fun _ => (0 : Fin 80)) 1 (List.replicate 60 [400]) 60 =
      ([], some "object of too small depth for desired array") := by
  refine ⟨by decide, by decide, ?_, rfl⟩
  intro fuel
  cases fuel with
  | zero => rfl
  | succ n => simp [loopTrace]

/-- Claim C7: a whole engine run is a function of the seeded random stream,
the unit count, the per-tick voltage inputs, and the tick length alone — two
runs over equal arguments produce equal published-current sequences. -/
theorem C7_determinism :
    ∀ (s1 s2 : ℕ → Fin 80) (n1 n2 : ℕ) (v1 v2 : List (List ℚ)) (dt1 dt2 : ℚ),
      s1 = s2 → n1 = n2 → v1 = v2 → dt1 = dt2 →
      runEngine s1 n1 v1 dt1 = runEngine s2 n2 v2 dt2 := by
  intro s1 s2 n1 n2 v1 v2 dt1 dt2 h1 h2 h3 h4
  rw [h1, h2, h3, h4]

/-- Witness for C7 at a concrete one-unit, one-tick run. -/
theorem C7_determinism_witness :
    runEngine (fun _ => (0 : Fin 80)) 1 [[400]] 60 =
      runEngine (fun _ => (0 : Fin 80)) 1 [[400]] 60 :=
  C7_determinism _ _ _ _ _ _ _ _ rfl rfl rfl rfl

/-- Claim C8: a per-unit tick writes only entry `j` of the SOC dictionary:
every other entry reads back unchanged. -/
theorem C8_frame :
    ∀ (st : List ℚ) (j : ℕ) (v : ℚ) (draw : Fin 80) (dt : ℚ) (k : ℕ),
      k ≠ j → ((stepState st j v draw dt).1).get? k = st.get? k := by
  intro st j v draw dt k hk
  simp only [stepState]
  split
  · rfl
  · exact List.get?_set_ne _ _ (fun h => hk h.symm)

/-- Witness for C8: stepping unit 0 of a two-unit state leaves unit 1's SOC
unread and unwritten. -/
theorem C8_frame_witness :
    ((stepState [(0 : ℚ), 1] 0 400 (0 : Fin 80) 60).1).get? 1 =
      [(0 : ℚ), 1].get? 1 :=
  C8_frame [0, 1] 0 400 0 60 1 (by decide)

/-- Claim C9: the tick as written returns no current at all (the lookup
raises), while under the intended interpolation a non-negative voltage and a
positive table-derived resistance give a non-negative current. -/
theorem C9_nonneg_current :
    (stepUnit (1 / 2) 400 (0 : Fin 80) 60).2 =
      Except.error "object of too small depth for desired array" ∧
    (∀ v soc dt : ℚ, 0 ≤ v →
      0 < (batt_cell_series : ℚ) * interpolate soc →
      0 ≤ (stepSpec batt_cell_series v soc dt).1) := by
  constructor
  · rfl
  · intro v soc dt hv hR
    simp only [stepSpec]
    exact div_nonneg hv (le_of_lt hR)

/-- Witness for C9 at 400 V and SOC 0.5. -/
theorem C9_nonneg_current_witness :
    0 ≤ (stepSpec batt_cell_series 400 (1 / 2) 60).1 :=
  C9_nonneg_current.2 400 (1 / 2) 60 (by norm_num)
    (by norm_num [batt_cell_series, interpolate, interpPt, interpGo, socs,
      effective_R, List.zip_cons_cons])

/-- Claim C10: every SOC produced by initialization or by the zero-voltage
reset is `k / 100` for an integer `0 ≤ k < 80` — a multiple of 0.01, not a
draw from the full continuum. -/
theorem C10_discrete_soc :
    ∀ draw : Fin 80,
      (∃ k : ℕ, k < 80 ∧ initSoc draw = (k : ℚ) / 100) ∧
      ∀ (soc dt : ℚ), (stepUnit soc 0 draw dt).1 = initSoc draw := by
  intro draw
  constructor
  · exact ⟨draw.val, draw.isLt, rfl⟩
  · intro soc dt
    rw [stepUnit_eq]
    simp

end EVBattery
